import Mathlib

/-!
Shallow embedding of the guild-raid damage aggregation engine of
`src/app.py` (routes `guild_raid` and `guild_raid_boss`), together with
proofs of the specified properties.

Python dictionaries preserve insertion order, so grouping dictionaries are
modelled as association lists updated in place (`upsert`).  `list.sort` is
stable, so it is modelled by the stable `List.mergeSort` on the same key.
`statistics.stdev` computes a floating-point square root; it is abstracted
as a parameter `sdev`, applied exactly where the source applies it
(`len(values) >= 2`); all other quantities are computed exactly
(`statistics.mean` is the exact rational mean).
-/

namespace Tacticus

/-- One raid-attack log entry.  Every field is optional, mirroring the
Python dict accesses `entry.get(field, default)` in `app.py`. -/
structure RaidEntry where
  type : Option String
  rarity : Option String
  set : Option Int
  tier : Option Int
  userId : Option String
  damageDealt : Option Int
  damageType : Option String
deriving DecidableEq

/-- `entry.get('type', 'Unknown')` (app.py:372). -/
def bossTypeOf (e : RaidEntry) : String := e.type.getD "Unknown"

/-- `entry.get('rarity', 'Unknown')` (app.py:373). -/
def rarityOf (e : RaidEntry) : String := e.rarity.getD "Unknown"

/-- `entry.get('set', 0)` (app.py:374). -/
def bossSetOf (e : RaidEntry) : Int := e.set.getD 0

/-- `entry.get('tier', 0)` (app.py:375). -/
def tierOf (e : RaidEntry) : Int := e.tier.getD 0

/-- `entry.get('damageDealt', 0)` (app.py:376, 445). -/
def damageOf (e : RaidEntry) : Int := e.damageDealt.getD 0

/-- `entry.get('damageType', '')` (app.py:377, 446). -/
def damageTypeOf (e : RaidEntry) : String := e.damageType.getD ""

/-- `entry.get('userId', 'Unknown')` (app.py:444). -/
def userIdOf (e : RaidEntry) : String := e.userId.getD "Unknown"

/-- Update-or-append on an association list: the model of assignment into a
Python dict (which keeps insertion order; a new key goes to the end). -/
def upsert {κ α : Type} [DecidableEq κ] (k : κ) (f : α → α) (init : α) :
    List (κ × α) → List (κ × α)
  | [] => [(k, init)]
  | (k', v) :: rest =>
      if k' = k then (k', f v) :: rest else (k', v) :: upsert k f init rest

/-- Lookup in an association list, the model of `d[k]` / `k in d`. -/
def alistGet {κ α : Type} [DecidableEq κ] (k : κ) : List (κ × α) → Option α
  | [] => none
  | (k', v) :: rest => if k' = k then some v else alistGet k rest

/-- The running per-encounter accumulator: the value stored in `boss_data`
before the statistics pass (app.py:387-394). -/
structure BossAcc where
  name : String
  damage : Int
  rarity : String
  set : Int
  tiers : Finset Int
  damage_values : List Int
deriving DecidableEq

/-- `key = (boss_type, rarity, boss_set)` (app.py:379). -/
def bossKeyOf (e : RaidEntry) : String × String × Int :=
  (bossTypeOf e, rarityOf e, bossSetOf e)

/-- The `if key in boss_data` branch of the loop (app.py:382-385). -/
def bossUpd (e : RaidEntry) (b : BossAcc) : BossAcc :=
  { b with
    damage := b.damage + damageOf e
    tiers := insert (tierOf e) b.tiers
    damage_values :=
      if damageTypeOf e ≠ "Bomb" then b.damage_values ++ [damageOf e]
      else b.damage_values }

/-- The `else` branch creating a fresh group (app.py:387-394). -/
def bossInit (e : RaidEntry) : BossAcc :=
  { name := bossTypeOf e
    damage := damageOf e
    rarity := rarityOf e
    set := bossSetOf e
    tiers := {tierOf e}
    damage_values := if damageTypeOf e ≠ "Bomb" then [damageOf e] else [] }

/-- One iteration of the aggregation loop `for entry in entries` (app.py:371-394). -/
def bossStep (acc : List ((String × String × Int) × BossAcc)) (e : RaidEntry) :
    List ((String × String × Int) × BossAcc) :=
  upsert (bossKeyOf e) (bossUpd e) (bossInit e) acc

/-- The fully accumulated `boss_data` dictionary. -/
def bossGroups (entries : List RaidEntry) :
    List ((String × String × Int) × BossAcc) :=
  entries.foldl bossStep []

/-- `statistics.mean` on integers: the exact arithmetic mean. -/
def mean (values : List Int) : ℚ :=
  ((values.sum : Int) : ℚ) / (values.length : ℚ)

/-- Python `min(values)` via a fold; the `0` base is the surrounding
`else: 0` default for an empty sample. -/
def listMin : List Int → Int
  | [] => 0
  | x :: xs => xs.foldl min x

/-- Python `max(values)`; the `0` base is the empty-sample default. -/
def listMax : List Int → Int
  | [] => 0
  | x :: xs => xs.foldl max x

/-- One row of the sorted leaderboard (the dict after the statistics pass,
app.py:396-412). -/
structure BossSummary where
  name : String
  damage : Int
  rarity : String
  set : Int
  tier_count : Nat
  avg_damage : ℚ
  stddev : ℚ
  min_damage : Int
  max_damage : Int
deriving DecidableEq

/-- The statistics pass over one group (app.py:397-412).  `sdev` stands for
`statistics.stdev` and is applied exactly on the source's
`len(values) >= 2` branch. -/
def bossStats (sdev : List Int → ℚ) (b : BossAcc) : BossSummary :=
  if 1 ≤ b.damage_values.length then
    { name := b.name, damage := b.damage, rarity := b.rarity, set := b.set
      tier_count := b.tiers.card
      avg_damage := mean b.damage_values
      stddev := if 2 ≤ b.damage_values.length then sdev b.damage_values else 0
      min_damage := listMin b.damage_values
      max_damage := listMax b.damage_values }
  else
    { name := b.name, damage := b.damage, rarity := b.rarity, set := b.set
      tier_count := b.tiers.card
      avg_damage := 0, stddev := 0, min_damage := 0, max_damage := 0 }

/-- `rarity_order.get(r, 99)` with
`rarity_order = {'Common': 0, ..., 'Mythic': 5}` (app.py:415, 417). -/
def rarity_order (r : String) : Int :=
  if r = "Common" then 0
  else if r = "Uncommon" then 1
  else if r = "Rare" then 2
  else if r = "Epic" then 3
  else if r = "Legendary" then 4
  else if r = "Mythic" then 5
  else 99

/-- The sort key `(-rarity_order.get(x['rarity'], 99), -x['set'], -x['damage'])`
(app.py:417). -/
def bossSortKey (b : BossSummary) : Int × Int × Int :=
  (-(rarity_order b.rarity), -b.set, -b.damage)

/-- Lexicographic `≤` on Python 3-tuples of integers. -/
def lex3 (a b : Int × Int × Int) : Bool :=
  decide (a.1 < b.1 ∨ (a.1 = b.1 ∧
    (a.2.1 < b.2.1 ∨ (a.2.1 = b.2.1 ∧ a.2.2 ≤ b.2.2))))

/-- Comparison used by `bosses.sort(key=...)` (app.py:417). -/
def bossLe (a b : BossSummary) : Bool := lex3 (bossSortKey a) (bossSortKey b)

/-- The encounter aggregator: the computation of the sorted `bosses` list in
the route `guild_raid` (app.py:368-417). -/
def guild_raid (sdev : List Int → ℚ) (entries : List RaidEntry) :
    List BossSummary :=
  ((bossGroups entries).map (fun kv => bossStats sdev kv.2)).mergeSort bossLe

/-- The per-player accumulator: the value stored in `player_data`
(app.py:449-454). -/
structure PlayerAcc where
  user_id : String
  total_damage : Int
  damage_values : List Int
  attack_count : Nat
deriving DecidableEq

/-- The fresh record created when a userId is first seen (app.py:448-454). -/
def playerInit (uid : String) : PlayerAcc :=
  { user_id := uid, total_damage := 0, damage_values := [], attack_count := 0 }

/-- The unconditional update applied to an existing record (app.py:456-459). -/
def playerUpd (e : RaidEntry) (p : PlayerAcc) : PlayerAcc :=
  let q := { p with total_damage := p.total_damage + damageOf e }
  if damageTypeOf e ≠ "Bomb" then
    { q with damage_values := q.damage_values ++ [damageOf e]
             attack_count := q.attack_count + 1 }
  else q

/-- One iteration of the player loop (app.py:443-459): a missing key is
first initialised, then updated. -/
def playerStep (acc : List (String × PlayerAcc)) (e : RaidEntry) :
    List (String × PlayerAcc) :=
  upsert (userIdOf e) (playerUpd e) (playerUpd e (playerInit (userIdOf e))) acc

/-- The filter on `boss_entries` (app.py:436-439); note the source uses
`e.get(...)` with no default here, so a missing field never matches. -/
def matchesBoss (boss_type rarity : String) (boss_set : Int) (e : RaidEntry) :
    Bool :=
  decide (e.type = some boss_type ∧ e.rarity = some rarity ∧
    e.set = some boss_set)

/-- The fully accumulated `player_data` dictionary. -/
def playerGroups (boss_entries : List RaidEntry) : List (String × PlayerAcc) :=
  boss_entries.foldl playerStep []

/-- One row of the per-player table (app.py:466-474). -/
structure PlayerSummary where
  user_id : String
  username : String
  total_damage : Int
  attack_count : Nat
  avg_damage : ℚ
  min_damage : Int
  max_damage : Int
deriving DecidableEq

/-- The statistics pass over one player (app.py:464-475); `usernames` models
the `usernames.json` mapping, looked up with default `''`. -/
def playerStats (usernames : String → Option String) (p : PlayerAcc) :
    PlayerSummary :=
  { user_id := p.user_id
    username := (usernames p.user_id).getD ""
    total_damage := p.total_damage
    attack_count := p.attack_count
    avg_damage := if p.damage_values ≠ [] then mean p.damage_values else 0
    min_damage := listMin p.damage_values
    max_damage := listMax p.damage_values }

/-- Comparison used by `players.sort(key=lambda x: -x['total_damage'])`
(app.py:478). -/
def playerLe (a b : PlayerSummary) : Bool :=
  decide (-a.total_damage ≤ -b.total_damage)

/-- The player aggregator: the computation of the sorted `players` list in
the route `guild_raid_boss` (app.py:422-478). -/
def guild_raid_boss (usernames : String → Option String)
    (boss_type rarity : String) (boss_set : Int)
    (entries : List RaidEntry) : List PlayerSummary :=
  let boss_entries := entries.filter (matchesBoss boss_type rarity boss_set)
  ((playerGroups boss_entries).map
      (fun kv => playerStats usernames kv.2)).mergeSort playerLe

/-- A stand-in for `statistics.stdev` used when a concrete instance is
needed; none of the verified properties depends on its values. -/
def sdev0 : List Int → ℚ := fun _ => 0

/-- A fully-populated entry, for concrete test inputs. -/
def mkEntry (t r : String) (s tr : Int) (uid : String) (dmg : Int)
    (dt : String) : RaidEntry :=
  ⟨some t, some r, some s, some tr, some uid, some dmg, some dt⟩

section AList

variable {κ α : Type} [DecidableEq κ]

lemma alistGet_upsert_same (k : κ) (f : α → α) (init : α) (acc : List (κ × α)) :
    alistGet k (upsert k f init acc) = some ((alistGet k acc).elim init f) := by
  induction acc with
  | nil => simp [upsert, alistGet]
  | cons kv rest ih =>
      obtain ⟨k', v⟩ := kv
      by_cases h : k' = k <;> simp [upsert, alistGet, h, ih]

lemma alistGet_upsert_ne {k k' : κ} (h : k' ≠ k) (f : α → α) (init : α)
    (acc : List (κ × α)) :
    alistGet k' (upsert k f init acc) = alistGet k' acc := by
  induction acc with
  | nil => simp [upsert, alistGet, Ne.symm h]
  | cons kv rest ih =>
      obtain ⟨k'', v⟩ := kv
      by_cases h2 : k'' = k <;> by_cases h3 : k'' = k' <;>
        simp_all [upsert, alistGet]

lemma upsert_map_fst (k : κ) (f : α → α) (init : α) (acc : List (κ × α)) :
    (upsert k f init acc).map Prod.fst =
      if k ∈ acc.map Prod.fst then acc.map Prod.fst
      else acc.map Prod.fst ++ [k] := by
  induction acc with
  | nil => simp [upsert]
  | cons kv rest ih =>
      obtain ⟨k', v⟩ := kv
      by_cases h : k' = k
      · subst h; simp [upsert]
      · have h' : ¬k = k' := fun he => h he.symm
        by_cases h2 : k ∈ rest.map Prod.fst <;>
          simp_all [upsert]

lemma nodup_upsert {k : κ} {f : α → α} {init : α} {acc : List (κ × α)}
    (h : (acc.map Prod.fst).Nodup) :
    ((upsert k f init acc).map Prod.fst).Nodup := by
  rw [upsert_map_fst]
  by_cases hk : k ∈ acc.map Prod.fst
  · simpa [hk]
  · rw [if_neg hk, List.nodup_append_comm]
    simpa using ⟨fun x hx => hk (List.mem_map.2 ⟨(k, x), hx, rfl⟩), h⟩

lemma alistGet_of_mem {acc : List (κ × α)} (h : (acc.map Prod.fst).Nodup)
    {kv : κ × α} (hm : kv ∈ acc) : alistGet kv.1 acc = some kv.2 := by
  induction acc with
  | nil => simp at hm
  | cons kv' rest ih =>
      obtain ⟨k', v'⟩ := kv'
      simp only [List.map_cons, List.nodup_cons] at h
      rcases List.mem_cons.1 hm with h1 | h1
      · subst h1; simp [alistGet]
      · have hne : k' ≠ kv.1 := by
          intro he
          exact h.1 (he ▸ (List.mem_map.2 ⟨kv, h1, rfl⟩))
        simp [alistGet, hne, ih h.2 h1]

lemma mem_of_alistGet {acc : List (κ × α)} {k : κ} {v : α}
    (h : alistGet k acc = some v) : (k, v) ∈ acc := by
  induction acc with
  | nil => simp [alistGet] at h
  | cons kv' rest ih =>
      obtain ⟨k', v'⟩ := kv'
      by_cases he : k' = k
      · subst he
        simp [alistGet] at h
        subst h; exact List.mem_cons_self _ _
      · simp only [alistGet, if_neg he] at h
        exact List.mem_cons_of_mem _ (ih h)

lemma upsert_sum_snd (k : κ) (f : α → α) (init : α) (acc : List (κ × α))
    (m : α → Int) (d : Int) (hf : ∀ v, m (f v) = m v + d) (hi : m init = d) :
    ((upsert k f init acc).map (fun kv => m kv.2)).sum =
      ((acc.map (fun kv => m kv.2)).sum) + d := by
  induction acc with
  | nil => simp [upsert, hi]
  | cons kv rest ih =>
      obtain ⟨k', v⟩ := kv
      by_cases h : k' = k
      · simp [upsert, h, hf]; ring
      · simp [upsert, h, ih]; ring

end AList

section BossFold

/-- The entries belonging to the encounter `k`, in input order. -/
def groupEntries (k : String × String × Int) (l : List RaidEntry) :
    List RaidEntry :=
  l.filter (fun e => decide (bossKeyOf e = k))

/-- The bomb-exclusion test `damage_type != 'Bomb'` (app.py:384, 457). -/
def nonBomb (e : RaidEntry) : Bool := decide (¬damageTypeOf e = "Bomb")

/-- Effect of one entry on its own key's slot, as an `Option` transformer. -/
def bossOptStep (og : Option BossAcc) (e : RaidEntry) : Option BossAcc :=
  some (og.elim (bossInit e) (bossUpd e))

lemma alistGet_bossStep (acc : List ((String × String × Int) × BossAcc))
    (e : RaidEntry) (k : String × String × Int) :
    alistGet k (bossStep acc e) =
      if bossKeyOf e = k then
        some ((alistGet k acc).elim (bossInit e) (bossUpd e))
      else alistGet k acc := by
  by_cases h : bossKeyOf e = k
  · subst h
    simp [bossStep, alistGet_upsert_same]
  · rw [if_neg h, bossStep, alistGet_upsert_ne (fun he => h he.symm)]

lemma alistGet_foldl_bossStep (l : List RaidEntry)
    (acc : List ((String × String × Int) × BossAcc))
    (k : String × String × Int) :
    alistGet k (l.foldl bossStep acc) =
      (groupEntries k l).foldl bossOptStep (alistGet k acc) := by
  induction l generalizing acc with
  | nil => rfl
  | cons e l ih =>
      rw [List.foldl_cons, ih]
      simp only [groupEntries]
      by_cases h : bossKeyOf e = k
      · rw [List.filter_cons_of_pos (by simpa using h), List.foldl_cons]
        congr 1
        rw [alistGet_bossStep, if_pos h, bossOptStep]
      · rw [List.filter_cons_of_neg (by simpa using h)]
        congr 1
        rw [alistGet_bossStep, if_neg h]

lemma foldl_bossOptStep_some (g : BossAcc) (es : List RaidEntry) :
    es.foldl bossOptStep (some g) =
      some (es.foldl (fun b e => bossUpd e b) g) := by
  induction es generalizing g with
  | nil => rfl
  | cons e es ih =>
      simp only [List.foldl_cons]
      rw [show bossOptStep (some g) e = some (bossUpd e g) from rfl, ih]

lemma foldl_bossUpd_name (g : BossAcc) (es : List RaidEntry) :
    (es.foldl (fun b e => bossUpd e b) g).name = g.name := by
  induction es generalizing g with
  | nil => rfl
  | cons e es ih => rw [List.foldl_cons, ih]; rfl

lemma foldl_bossUpd_rarity (g : BossAcc) (es : List RaidEntry) :
    (es.foldl (fun b e => bossUpd e b) g).rarity = g.rarity := by
  induction es generalizing g with
  | nil => rfl
  | cons e es ih => rw [List.foldl_cons, ih]; rfl

lemma foldl_bossUpd_set (g : BossAcc) (es : List RaidEntry) :
    (es.foldl (fun b e => bossUpd e b) g).set = g.set := by
  induction es generalizing g with
  | nil => rfl
  | cons e es ih => rw [List.foldl_cons, ih]; rfl

lemma foldl_bossUpd_damage (g : BossAcc) (es : List RaidEntry) :
    (es.foldl (fun b e => bossUpd e b) g).damage =
      g.damage + (es.map damageOf).sum := by
  induction es generalizing g with
  | nil => simp
  | cons e es ih =>
      rw [List.foldl_cons, ih]
      show (bossUpd e g).damage + _ = _
      rw [bossUpd]
      simp
      ring

lemma foldl_bossUpd_tiers (g : BossAcc) (es : List RaidEntry) :
    (es.foldl (fun b e => bossUpd e b) g).tiers =
      g.tiers ∪ (es.map tierOf).toFinset := by
  induction es generalizing g with
  | nil => simp
  | cons e es ih =>
      rw [List.foldl_cons, ih]
      show insert (tierOf e) g.tiers ∪ _ = _
      simp [Finset.insert_union, Finset.union_insert]

lemma foldl_bossUpd_values (g : BossAcc) (es : List RaidEntry) :
    (es.foldl (fun b e => bossUpd e b) g).damage_values =
      g.damage_values ++ ((es.filter nonBomb).map damageOf) := by
  induction es generalizing g with
  | nil => simp
  | cons e es ih =>
      rw [List.foldl_cons, ih]
      by_cases h : damageTypeOf e = "Bomb"
      · simp [bossUpd, nonBomb, h]
      · simp [bossUpd, nonBomb, h]

lemma bossGroups_get (l : List RaidEntry) (k : String × String × Int) :
    alistGet k (bossGroups l) =
      match groupEntries k l with
      | [] => none
      | e :: es => some (es.foldl (fun b e => bossUpd e b) (bossInit e)) := by
  rw [bossGroups, alistGet_foldl_bossStep]
  cases groupEntries k l with
  | nil => rfl
  | cons e es =>
      rw [List.foldl_cons]
      exact foldl_bossOptStep_some _ _

lemma bossGroup_spec {l : List RaidEntry} {k : String × String × Int}
    {g : BossAcc} (h : alistGet k (bossGroups l) = some g) :
    g.name = k.1 ∧ g.rarity = k.2.1 ∧ g.set = k.2.2 ∧
    g.damage = ((groupEntries k l).map damageOf).sum ∧
    g.tiers = ((groupEntries k l).map tierOf).toFinset ∧
    g.damage_values = ((groupEntries k l).filter nonBomb).map damageOf := by
  rw [bossGroups_get] at h
  cases hge : groupEntries k l with
  | nil => rw [hge] at h; cases h
  | cons e es =>
      rw [hge] at h
      have he : e ∈ groupEntries k l := by
        rw [hge]; exact List.mem_cons_self _ _
      have hk : bossKeyOf e = k := by
        have := (List.mem_filter.1 (by rw [groupEntries] at he; exact he)).2
        simpa using this
      have hg : g = es.foldl (fun b e => bossUpd e b) (bossInit e) :=
        (Option.some.injEq _ _ ▸ h).symm
      have h1 : bossTypeOf e = k.1 := congrArg (fun p => p.1) hk
      have h2 : rarityOf e = k.2.1 := congrArg (fun p => p.2.1) hk
      have h3 : bossSetOf e = k.2.2 := congrArg (fun p => p.2.2) hk
      refine ⟨?_, ?_, ?_, ?_, ?_, ?_⟩
      · rw [hg, foldl_bossUpd_name, bossInit, ← h1]
      · rw [hg, foldl_bossUpd_rarity, bossInit, ← h2]
      · rw [hg, foldl_bossUpd_set, bossInit, ← h3]
      · rw [hg, foldl_bossUpd_damage]
        show (bossInit e).damage + _ = _
        rw [bossInit]
        simp
      · rw [hg, foldl_bossUpd_tiers]
        show {tierOf e} ∪ _ = _
        simp only [List.map_cons, List.toFinset_cons]
        ext x
        simp
      · rw [hg, foldl_bossUpd_values]
        show (bossInit e).damage_values ++ _ = _
        by_cases hb : damageTypeOf e = "Bomb"
        · simp [bossInit, nonBomb, hb]
        · simp [bossInit, nonBomb, hb]

lemma bossGroups_nodup (l : List RaidEntry) :
    ((bossGroups l).map Prod.fst).Nodup := by
  rw [bossGroups]
  have : ∀ acc : List ((String × String × Int) × BossAcc),
      (acc.map Prod.fst).Nodup → ((l.foldl bossStep acc).map Prod.fst).Nodup := by
    induction l with
    | nil => exact fun acc h => h
    | cons e l ih =>
        intro acc h
        rw [List.foldl_cons]
        exact ih _ (nodup_upsert h)
  exact this [] (by simp)

end BossFold

section PlayerFold

/-- The filtered entries attributed to the player `uid`, in input order. -/
def playerEntries (uid : String) (boss_entries : List RaidEntry) :
    List RaidEntry :=
  boss_entries.filter (fun e => decide (userIdOf e = uid))

/-- Effect of one entry on its player's slot, as an `Option` transformer. -/
def playerOptStep (op : Option PlayerAcc) (e : RaidEntry) : Option PlayerAcc :=
  some (playerUpd e (op.getD (playerInit (userIdOf e))))

lemma alistGet_playerStep (acc : List (String × PlayerAcc)) (e : RaidEntry)
    (uid : String) :
    alistGet uid (playerStep acc e) =
      if userIdOf e = uid then
        some (playerUpd e ((alistGet uid acc).getD (playerInit (userIdOf e))))
      else alistGet uid acc := by
  by_cases h : userIdOf e = uid
  · subst h
    rw [if_pos rfl, playerStep, alistGet_upsert_same]
    cases alistGet (userIdOf e) acc <;> rfl
  · rw [if_neg h, playerStep, alistGet_upsert_ne (fun he => h he.symm)]

lemma alistGet_foldl_playerStep (l : List RaidEntry)
    (acc : List (String × PlayerAcc)) (uid : String) :
    alistGet uid (l.foldl playerStep acc) =
      (playerEntries uid l).foldl playerOptStep (alistGet uid acc) := by
  induction l generalizing acc with
  | nil => rfl
  | cons e l ih =>
      rw [List.foldl_cons, ih]
      simp only [playerEntries]
      by_cases h : userIdOf e = uid
      · rw [List.filter_cons_of_pos (by simpa using h), List.foldl_cons]
        congr 1
        rw [alistGet_playerStep, if_pos h, playerOptStep]
      · rw [List.filter_cons_of_neg (by simpa using h)]
        congr 1
        rw [alistGet_playerStep, if_neg h]

lemma foldl_playerOptStep_some (p : PlayerAcc) (es : List RaidEntry) :
    es.foldl playerOptStep (some p) =
      some (es.foldl (fun q e => playerUpd e q) p) := by
  induction es generalizing p with
  | nil => rfl
  | cons e es ih =>
      simp only [List.foldl_cons]
      rw [show playerOptStep (some p) e = some (playerUpd e p) from rfl, ih]

lemma playerUpd_user_id (e : RaidEntry) (p : PlayerAcc) :
    (playerUpd e p).user_id = p.user_id := by
  rw [playerUpd]
  by_cases h : damageTypeOf e = "Bomb" <;> simp [h]

lemma playerUpd_total (e : RaidEntry) (p : PlayerAcc) :
    (playerUpd e p).total_damage = p.total_damage + damageOf e := by
  rw [playerUpd]
  by_cases h : damageTypeOf e = "Bomb" <;> simp [h]

lemma playerUpd_values (e : RaidEntry) (p : PlayerAcc) :
    (playerUpd e p).damage_values =
      if nonBomb e then p.damage_values ++ [damageOf e]
      else p.damage_values := by
  rw [playerUpd]
  by_cases h : damageTypeOf e = "Bomb" <;> simp [nonBomb, h]

lemma playerUpd_count (e : RaidEntry) (p : PlayerAcc) :
    (playerUpd e p).attack_count =
      if nonBomb e then p.attack_count + 1 else p.attack_count := by
  rw [playerUpd]
  by_cases h : damageTypeOf e = "Bomb" <;> simp [nonBomb, h]

lemma foldl_playerUpd_user_id (p : PlayerAcc) (es : List RaidEntry) :
    (es.foldl (fun q e => playerUpd e q) p).user_id = p.user_id := by
  induction es generalizing p with
  | nil => rfl
  | cons e es ih => rw [List.foldl_cons, ih, playerUpd_user_id]

lemma foldl_playerUpd_total (p : PlayerAcc) (es : List RaidEntry) :
    (es.foldl (fun q e => playerUpd e q) p).total_damage =
      p.total_damage + (es.map damageOf).sum := by
  induction es generalizing p with
  | nil => simp
  | cons e es ih =>
      rw [List.foldl_cons, ih, playerUpd_total]
      simp
      ring

lemma foldl_playerUpd_values (p : PlayerAcc) (es : List RaidEntry) :
    (es.foldl (fun q e => playerUpd e q) p).damage_values =
      p.damage_values ++ ((es.filter nonBomb).map damageOf) := by
  induction es generalizing p with
  | nil => simp
  | cons e es ih =>
      rw [List.foldl_cons, ih, playerUpd_values]
      by_cases h : nonBomb e <;> simp [h]

lemma foldl_playerUpd_count (p : PlayerAcc) (es : List RaidEntry) :
    (es.foldl (fun q e => playerUpd e q) p).attack_count =
      p.attack_count + (es.filter nonBomb).length := by
  induction es generalizing p with
  | nil => simp
  | cons e es ih =>
      rw [List.foldl_cons, ih, playerUpd_count]
      by_cases h : nonBomb e
      · simp [h]
        ring
      · simp [h]

lemma playerGroups_get (l : List RaidEntry) (uid : String) :
    alistGet uid (playerGroups l) =
      match playerEntries uid l with
      | [] => none
      | e :: es =>
          some ((e :: es).foldl (fun q e => playerUpd e q) (playerInit uid)) := by
  rw [playerGroups, alistGet_foldl_playerStep]
  cases hpe : playerEntries uid l with
  | nil => rfl
  | cons e es =>
      have he : e ∈ playerEntries uid l := by
        rw [hpe]; exact List.mem_cons_self _ _
      have hu : userIdOf e = uid := by
        have := (List.mem_filter.1 (by rw [playerEntries] at he; exact he)).2
        simpa using this
      rw [List.foldl_cons,
        show playerOptStep (alistGet uid ([] : List (String × PlayerAcc))) e =
          some (playerUpd e (playerInit (userIdOf e))) from rfl, hu,
        foldl_playerOptStep_some]
      rfl

lemma playerGroup_spec {l : List RaidEntry} {uid : String} {p : PlayerAcc}
    (h : alistGet uid (playerGroups l) = some p) :
    p.user_id = uid ∧
    p.total_damage = ((playerEntries uid l).map damageOf).sum ∧
    p.damage_values = ((playerEntries uid l).filter nonBomb).map damageOf ∧
    p.attack_count = ((playerEntries uid l).filter nonBomb).length := by
  rw [playerGroups_get] at h
  cases hpe : playerEntries uid l with
  | nil => rw [hpe] at h; cases h
  | cons e es =>
      rw [hpe] at h
      have hp : p = (e :: es).foldl (fun q e => playerUpd e q) (playerInit uid) :=
        (Option.some.injEq _ _ ▸ h).symm
      refine ⟨?_, ?_, ?_, ?_⟩
      · rw [hp, foldl_playerUpd_user_id]; rfl
      · rw [hp, foldl_playerUpd_total]
        simp [playerInit]
      · rw [hp, foldl_playerUpd_values]
        simp [playerInit]
      · rw [hp, foldl_playerUpd_count]
        simp [playerInit]

lemma playerGroups_nodup (l : List RaidEntry) :
    ((playerGroups l).map Prod.fst).Nodup := by
  rw [playerGroups]
  have : ∀ acc : List (String × PlayerAcc),
      (acc.map Prod.fst).Nodup →
        ((l.foldl playerStep acc).map Prod.fst).Nodup := by
    induction l with
    | nil => exact fun acc h => h
    | cons e l ih =>
        intro acc h
        rw [List.foldl_cons]
        exact ih _ (nodup_upsert h)
  exact this [] (by simp)

end PlayerFold

section Summaries

lemma bossStats_name (sdev : List Int → ℚ) (b : BossAcc) :
    (bossStats sdev b).name = b.name := by
  rw [bossStats]; split <;> rfl

lemma bossStats_rarity (sdev : List Int → ℚ) (b : BossAcc) :
    (bossStats sdev b).rarity = b.rarity := by
  rw [bossStats]; split <;> rfl

lemma bossStats_set (sdev : List Int → ℚ) (b : BossAcc) :
    (bossStats sdev b).set = b.set := by
  rw [bossStats]; split <;> rfl

lemma bossStats_damage (sdev : List Int → ℚ) (b : BossAcc) :
    (bossStats sdev b).damage = b.damage := by
  rw [bossStats]; split <;> rfl

lemma bossStats_tier_count (sdev : List Int → ℚ) (b : BossAcc) :
    (bossStats sdev b).tier_count = b.tiers.card := by
  rw [bossStats]; split <;> rfl

lemma bossStats_empty (sdev : List Int → ℚ) (b : BossAcc)
    (h : b.damage_values = []) :
    (bossStats sdev b).avg_damage = 0 ∧ (bossStats sdev b).stddev = 0 ∧
    (bossStats sdev b).min_damage = 0 ∧ (bossStats sdev b).max_damage = 0 := by
  simp [bossStats, h]

lemma bossStats_single (sdev : List Int → ℚ) (b : BossAcc) (v : Int)
    (h : b.damage_values = [v]) :
    (bossStats sdev b).avg_damage = (v : ℚ) ∧ (bossStats sdev b).stddev = 0 ∧
    (bossStats sdev b).min_damage = v ∧ (bossStats sdev b).max_damage = v := by
  simp [bossStats, h, mean, listMin, listMax]

lemma playerStats_user_id (un : String → Option String) (p : PlayerAcc) :
    (playerStats un p).user_id = p.user_id := rfl

lemma playerStats_total (un : String → Option String) (p : PlayerAcc) :
    (playerStats un p).total_damage = p.total_damage := rfl

lemma playerStats_count (un : String → Option String) (p : PlayerAcc) :
    (playerStats un p).attack_count = p.attack_count := rfl

lemma playerStats_empty (un : String → Option String) (p : PlayerAcc)
    (h : p.damage_values = []) :
    (playerStats un p).avg_damage = 0 ∧ (playerStats un p).min_damage = 0 ∧
    (playerStats un p).max_damage = 0 := by
  simp [playerStats, h, listMin, listMax]

end Summaries

section Sorting

lemma lex3_trans (a b c : Int × Int × Int) (h1 : lex3 a b = true)
    (h2 : lex3 b c = true) : lex3 a c = true := by
  simp only [lex3, decide_eq_true_eq] at *
  omega

lemma lex3_total (a b : Int × Int × Int) : (lex3 a b || lex3 b a) = true := by
  simp only [lex3, Bool.or_eq_true, decide_eq_true_eq]
  omega

lemma bossLe_trans (a b c : BossSummary) (h1 : bossLe a b = true)
    (h2 : bossLe b c = true) : bossLe a c = true :=
  lex3_trans _ _ _ h1 h2

lemma bossLe_total (a b : BossSummary) : (bossLe a b || bossLe b a) = true :=
  lex3_total _ _

lemma playerLe_trans (a b c : PlayerSummary) (h1 : playerLe a b = true)
    (h2 : playerLe b c = true) : playerLe a c = true := by
  simp only [playerLe, decide_eq_true_eq] at *
  omega

lemma playerLe_total (a b : PlayerSummary) :
    (playerLe a b || playerLe b a) = true := by
  simp only [playerLe, Bool.or_eq_true, decide_eq_true_eq]
  omega

lemma guild_raid_pairwise (sdev : List Int → ℚ) (l : List RaidEntry) :
    (guild_raid sdev l).Pairwise (fun a b => bossLe a b = true) := by
  rw [guild_raid]
  exact List.sorted_mergeSort bossLe_trans bossLe_total _

lemma guild_raid_boss_pairwise (un : String → Option String)
    (bt r : String) (bs : Int) (l : List RaidEntry) :
    (guild_raid_boss un bt r bs l).Pairwise
      (fun a b => playerLe a b = true) := by
  rw [guild_raid_boss]
  exact List.sorted_mergeSort playerLe_trans playerLe_total _

end Sorting

section Membership

lemma mem_guild_raid {sdev : List Int → ℚ} {l : List RaidEntry}
    {s : BossSummary} :
    s ∈ guild_raid sdev l ↔
      ∃ kv ∈ bossGroups l, bossStats sdev kv.2 = s := by
  rw [guild_raid, List.mem_mergeSort, List.mem_map]

lemma prod_eta (k : String × String × Int) : (k.1, k.2.1, k.2.2) = k := by
  obtain ⟨a, b, c⟩ := k
  rfl

lemma guild_raid_elim {sdev : List Int → ℚ} {l : List RaidEntry}
    {s : BossSummary} (h : s ∈ guild_raid sdev l) :
    ∃ g, alistGet (s.name, s.rarity, s.set) (bossGroups l) = some g ∧
      s = bossStats sdev g := by
  rcases mem_guild_raid.1 h with ⟨kv, hkv, heq⟩
  have hget := alistGet_of_mem (bossGroups_nodup l) hkv
  have hspec := bossGroup_spec hget
  have hks : (s.name, s.rarity, s.set) = kv.1 := by
    rw [← heq, bossStats_name, bossStats_rarity, bossStats_set,
      hspec.1, hspec.2.1, hspec.2.2.1, prod_eta]
  exact ⟨kv.2, hks ▸ hget, heq.symm⟩

lemma mem_guild_raid_boss {un : String → Option String} {bt r : String}
    {bs : Int} {l : List RaidEntry} {p : PlayerSummary} :
    p ∈ guild_raid_boss un bt r bs l ↔
      ∃ kv ∈ playerGroups (l.filter (matchesBoss bt r bs)),
        playerStats un kv.2 = p := by
  rw [guild_raid_boss, List.mem_mergeSort, List.mem_map]

lemma guild_raid_boss_elim {un : String → Option String} {bt r : String}
    {bs : Int} {l : List RaidEntry} {p : PlayerSummary}
    (h : p ∈ guild_raid_boss un bt r bs l) :
    ∃ q, alistGet p.user_id
        (playerGroups (l.filter (matchesBoss bt r bs))) = some q ∧
      p = playerStats un q := by
  rcases mem_guild_raid_boss.1 h with ⟨kv, hkv, heq⟩
  have hget := alistGet_of_mem (playerGroups_nodup _) hkv
  have hspec := playerGroup_spec hget
  have hks : p.user_id = kv.1 := by
    rw [← heq, playerStats_user_id, hspec.1]
  exact ⟨kv.2, hks ▸ hget, heq.symm⟩

lemma guild_raid_boss_intro {un : String → Option String} {bt r : String}
    {bs : Int} {l : List RaidEntry} {uid : String} {q : PlayerAcc}
    (h : alistGet uid (playerGroups (l.filter (matchesBoss bt r bs))) = some q) :
    playerStats un q ∈ guild_raid_boss un bt r bs l :=
  mem_guild_raid_boss.2 ⟨(uid, q), mem_of_alistGet h, rfl⟩

end Membership

section Sums

lemma bossStep_sum (acc : List ((String × String × Int) × BossAcc))
    (e : RaidEntry) :
    ((bossStep acc e).map (fun kv => kv.2.damage)).sum =
      ((acc.map (fun kv => kv.2.damage)).sum) + damageOf e := by
  rw [bossStep]
  exact upsert_sum_snd _ _ _ _ BossAcc.damage (damageOf e)
    (fun v => rfl) rfl

lemma bossGroups_sum (l : List RaidEntry) :
    ((bossGroups l).map (fun kv => kv.2.damage)).sum = (l.map damageOf).sum := by
  rw [bossGroups]
  have : ∀ acc : List ((String × String × Int) × BossAcc),
      ((l.foldl bossStep acc).map (fun kv => kv.2.damage)).sum =
        ((acc.map (fun kv => kv.2.damage)).sum) + (l.map damageOf).sum := by
    induction l with
    | nil => simp
    | cons e l ih =>
        intro acc
        rw [List.foldl_cons, ih, bossStep_sum]
        simp
        ring
  simpa using this []

lemma guild_raid_sum (sdev : List Int → ℚ) (l : List RaidEntry) :
    ((guild_raid sdev l).map (fun s => s.damage)).sum = (l.map damageOf).sum := by
  rw [guild_raid]
  rw [((List.mergeSort_perm _ bossLe).map (fun s => s.damage)).sum_eq]
  rw [List.map_map]
  have : ((fun s => s.damage) ∘ fun kv => bossStats sdev kv.2) =
      fun kv : (String × String × Int) × BossAcc => kv.2.damage := by
    funext kv
    exact bossStats_damage sdev kv.2
  rw [this, bossGroups_sum]

lemma playerStep_sum (acc : List (String × PlayerAcc)) (e : RaidEntry) :
    ((playerStep acc e).map (fun kv => kv.2.total_damage)).sum =
      ((acc.map (fun kv => kv.2.total_damage)).sum) + damageOf e := by
  rw [playerStep]
  exact upsert_sum_snd _ _ _ _ PlayerAcc.total_damage (damageOf e)
    (fun v => playerUpd_total e v)
    (by rw [playerUpd_total]; simp [playerInit])

lemma playerGroups_sum (l : List RaidEntry) :
    ((playerGroups l).map (fun kv => kv.2.total_damage)).sum =
      (l.map damageOf).sum := by
  rw [playerGroups]
  have : ∀ acc : List (String × PlayerAcc),
      ((l.foldl playerStep acc).map (fun kv => kv.2.total_damage)).sum =
        ((acc.map (fun kv => kv.2.total_damage)).sum) + (l.map damageOf).sum := by
    induction l with
    | nil => simp
    | cons e l ih =>
        intro acc
        rw [List.foldl_cons, ih, playerStep_sum]
        simp
        ring
  simpa using this []

lemma guild_raid_boss_sum (un : String → Option String) (bt r : String)
    (bs : Int) (l : List RaidEntry) :
    ((guild_raid_boss un bt r bs l).map (fun p => p.total_damage)).sum =
      ((l.filter (matchesBoss bt r bs)).map damageOf).sum := by
  rw [guild_raid_boss]
  rw [((List.mergeSort_perm _ playerLe).map (fun p => p.total_damage)).sum_eq]
  rw [List.map_map]
  have : ((fun p => p.total_damage) ∘ fun kv => playerStats un kv.2) =
      fun kv : String × PlayerAcc => kv.2.total_damage := by
    funext kv
    rfl
  rw [this, playerGroups_sum]

end Sums

section Rarity

/-- Whether `r` is one of the six rarities ranked by `rarity_order`. -/
def isKnownRarity (r : String) : Bool :=
  decide (r = "Common" ∨ r = "Uncommon" ∨ r = "Rare" ∨ r = "Epic" ∨
    r = "Legendary" ∨ r = "Mythic")

lemma rarity_order_of_known {r : String} (h : isKnownRarity r = true) :
    0 ≤ rarity_order r ∧ rarity_order r ≤ 5 := by
  simp only [isKnownRarity, decide_eq_true_eq] at h
  rcases h with h | h | h | h | h | h <;> subst h <;> decide

lemma rarity_order_of_unknown {r : String} (h : isKnownRarity r = false) :
    rarity_order r = 99 := by
  simp only [isKnownRarity, decide_eq_false_iff_not] at h
  push_neg at h
  obtain ⟨h1, h2, h3, h4, h5, h6⟩ := h
  simp [rarity_order, h1, h2, h3, h4, h5, h6]

end Rarity

section Examples

/-- Empty name mapping, for concrete runs. -/
def un0 : String → Option String := fun _ => none

/-- One bomb (100) plus one melee (50) attack on the same encounter. -/
def exC2 : List RaidEntry :=
  [mkEntry "B" "Epic" 1 1 "u1" 100 "Bomb", mkEntry "B" "Epic" 1 1 "u2" 50 "Melee"]

/-- One known-rarity encounter and one with the unranked rarity `Weird`. -/
def exC3 : List RaidEntry :=
  [mkEntry "B" "Mythic" 1 1 "u1" 10 "Melee", mkEntry "B" "Weird" 1 1 "u2" 10 "Melee"]

/-- A Rare/set 2/damage 500 and an Epic/set 1/damage 100 encounter. -/
def exC5 : List RaidEntry :=
  [mkEntry "B" "Rare" 2 1 "u1" 500 "Melee", mkEntry "B" "Epic" 1 1 "u2" 100 "Melee"]

/-- Alice dealing 300, then Bob and Carol dealing 500 each. -/
def exC7 : List RaidEntry :=
  [mkEntry "B" "Epic" 1 1 "Alice" 300 "Melee",
   mkEntry "B" "Epic" 1 1 "Bob" 500 "Melee",
   mkEntry "B" "Epic" 1 1 "Carol" 500 "Melee"]

end Examples

/-- Claim C1: for every input entry list, the sum of `totalDamage` over all
rows produced by the encounter aggregator equals the sum of `damageDealt`
over all input entries; and for every entry list filtered to one encounter,
the sum of `totalDamage` over the player aggregator's rows equals the sum of
`damageDealt` over the filtered entries. -/
theorem C1_damage_conservation :
    (∀ (sdev : List Int → ℚ) (entries : List RaidEntry),
      ((guild_raid sdev entries).map (fun s => s.damage)).sum =
        (entries.map damageOf).sum) ∧
    (∀ (un : String → Option String) (bt r : String) (bs : Int)
        (entries : List RaidEntry),
      ((guild_raid_boss un bt r bs entries).map
          (fun p => p.total_damage)).sum =
        ((entries.filter (matchesBoss bt r bs)).map damageOf).sum) :=
  ⟨guild_raid_sum, guild_raid_boss_sum⟩

/-- Claim C2: in both aggregators an entry with `damageType = "Bomb"`
contributes its damage to the group's total but is excluded from the
damage-value sample (which is exactly the non-bomb damages, in order); in
particular one bomb of 100 plus one melee of 50 in one encounter yield
`totalDamage = 150`, `avgDamage = 50`, `minDamage = 50`, `maxDamage = 50`,
`stddev = 0`. -/
theorem C2_bomb_exclusion :
    (∀ (entries : List RaidEntry) (k : String × String × Int) (g : BossAcc),
      alistGet k (bossGroups entries) = some g →
        g.damage = ((groupEntries k entries).map damageOf).sum ∧
        g.damage_values =
          ((groupEntries k entries).filter nonBomb).map damageOf) ∧
    (∀ (bt r : String) (bs : Int) (entries : List RaidEntry) (uid : String)
        (q : PlayerAcc),
      alistGet uid (playerGroups (entries.filter (matchesBoss bt r bs))) =
          some q →
        q.total_damage =
          ((playerEntries uid (entries.filter (matchesBoss bt r bs))).map
              damageOf).sum ∧
        q.damage_values =
          ((playerEntries uid
              (entries.filter (matchesBoss bt r bs))).filter nonBomb).map
            damageOf) ∧
    (∀ sdev : List Int → ℚ,
      guild_raid sdev exC2 = [⟨"B", 150, "Epic", 1, 1, 50, 0, 50, 50⟩]) := by
  refine ⟨?_, ?_, ?_⟩
  · intro entries k g h
    exact ⟨(bossGroup_spec h).2.2.2.1, (bossGroup_spec h).2.2.2.2.2⟩
  · intro bt r bs entries uid q h
    exact ⟨(playerGroup_spec h).2.1, (playerGroup_spec h).2.2.1⟩
  · intro sdev
    simp [guild_raid, bossGroups, bossStep, upsert, bossKeyOf, bossUpd,
      bossInit, bossTypeOf, rarityOf, bossSetOf, tierOf, damageOf,
      damageTypeOf, mkEntry, bossStats, mean, listMin, listMax,
      List.mergeSort, exC2]

/-- The accumulated group of `exC2`, used to instantiate claim C2. -/
def gC2 : BossAcc := ⟨"B", 150, "Epic", 1, {1}, [50]⟩

/-- Witness for claim C2 at the concrete input `exC2`. -/
theorem C2_bomb_exclusion_witness :
    alistGet ("B", "Epic", 1) (bossGroups exC2) = some gC2 ∧
    (gC2.damage = ((groupEntries ("B", "Epic", 1) exC2).map damageOf).sum ∧
      gC2.damage_values =
        ((groupEntries ("B", "Epic", 1) exC2).filter nonBomb).map damageOf) :=
  ⟨by decide, C2_bomb_exclusion.1 exC2 ("B", "Epic", 1) gC2 (by decide)⟩

/-- Claim C3 as stated (unknown rarities are placed after all known ones)
is false on the code: with one `Mythic` and one unranked `Weird` encounter,
the `Weird` row sorts first, because the sort key negates the fallback rank
`99`, giving `-99`, which precedes every known key. -/
theorem C3_counterexample :
    ¬ (guild_raid sdev0 exC3).Pairwise
        (fun a b =>
          isKnownRarity a.rarity = false → isKnownRarity b.rarity = false) := by
  intro h
  have hout : (guild_raid sdev0 exC3).map (fun s => s.rarity) =
      ["Weird", "Mythic"] := by
    simp [guild_raid, bossGroups, bossStep, upsert, bossKeyOf, bossUpd,
      bossInit, bossTypeOf, rarityOf, bossSetOf, tierOf, damageOf,
      damageTypeOf, mkEntry, bossStats, mean, listMin, listMax,
      List.mergeSort, List.merge, bossLe, lex3, bossSortKey, rarity_order,
      sdev0, exC3]
  have h2 : (List.map (fun s : BossSummary => s.rarity)
        (guild_raid sdev0 exC3)).Pairwise
      (fun x y => isKnownRarity x = false → isKnownRarity y = false) :=
    h.map (fun s : BossSummary => s.rarity) (fun a b hab => hab)
  rw [hout] at h2
  have h3 := (List.pairwise_cons.1 h2).1 "Mythic" (List.mem_singleton_self _)
  have h4 : isKnownRarity "Weird" = false := by decide
  have h5 := h3 h4
  exact absurd h5 (by decide)

/-- Claim C3, amended: in the encounter aggregator's output every summary
whose rarity is not one of the six ranked rarities sorts BEFORE all
summaries with a known rarity (the code's fallback rank 99 is negated, so
unranked rarities come first, not last). -/
theorem C3_unknown_rarities_first :
    ∀ (sdev : List Int → ℚ) (entries : List RaidEntry),
      (guild_raid sdev entries).Pairwise
        (fun a b =>
          isKnownRarity a.rarity = true → isKnownRarity b.rarity = true) := by
  intro sdev entries
  refine (guild_raid_pairwise sdev entries).imp ?_
  intro a b hle hka
  by_contra hkb
  rw [Bool.not_eq_true] at hkb
  have h99 := rarity_order_of_unknown hkb
  have hr := rarity_order_of_known hka
  rw [bossLe, lex3, bossSortKey, bossSortKey, decide_eq_true_eq] at hle
  omega

/-- Witness instantiating the amended claim C3 on a concrete run. -/
theorem C3_unknown_rarities_first_witness :
    (guild_raid sdev0 exC3).Pairwise
      (fun a b =>
        isKnownRarity a.rarity = true → isKnownRarity b.rarity = true) :=
  C3_unknown_rarities_first sdev0 exC3

/-- A single bomb attack of 999, so the group has no non-bomb entries. -/
def exC4 : List RaidEntry := [mkEntry "B" "Epic" 1 1 "u1" 999 "Bomb"]

/-- The summary produced for `exC4`. -/
def sC4 : BossSummary := ⟨"B", 999, "Epic", 1, 1, 0, 0, 0, 0⟩

/-- Claim C4: a group with zero non-bomb entries reports
`avg = stddev = min = max = 0` (no error), and an encounter group whose
non-bomb sample is exactly one value `v` reports `stddev = 0` and
`avg = min = max = v`. -/
theorem C4_insufficient_sample_defaults :
    (∀ (sdev : List Int → ℚ) (entries : List RaidEntry) (s : BossSummary),
      s ∈ guild_raid sdev entries →
        (((groupEntries (s.name, s.rarity, s.set) entries).filter nonBomb)
            = [] →
          s.avg_damage = 0 ∧ s.stddev = 0 ∧ s.min_damage = 0 ∧
            s.max_damage = 0) ∧
        (∀ v : Int,
          ((groupEntries (s.name, s.rarity, s.set) entries).filter
              nonBomb).map damageOf = [v] →
            s.stddev = 0 ∧ s.avg_damage = (v : ℚ) ∧ s.min_damage = v ∧
              s.max_damage = v)) ∧
    (∀ (un : String → Option String) (bt r : String) (bs : Int)
        (entries : List RaidEntry) (p : PlayerSummary),
      p ∈ guild_raid_boss un bt r bs entries →
        (playerEntries p.user_id
            (entries.filter (matchesBoss bt r bs))).filter nonBomb = [] →
          p.avg_damage = 0 ∧ p.min_damage = 0 ∧ p.max_damage = 0) := by
  constructor
  · intro sdev entries s hs
    rcases guild_raid_elim hs with ⟨g, hget, hsg⟩
    have hspec := bossGroup_spec hget
    constructor
    · intro h0
      have hdv : g.damage_values = [] := by
        rw [hspec.2.2.2.2.2, h0]
        rfl
      rw [hsg]
      exact bossStats_empty sdev g hdv
    · intro v hv
      have hdv : g.damage_values = [v] := by
        rw [hspec.2.2.2.2.2, hv]
      rcases bossStats_single sdev g v hdv with ⟨h1, h2, h3, h4⟩
      rw [hsg]
      exact ⟨h2, h1, h3, h4⟩
  · intro un bt r bs entries p hp h0
    rcases guild_raid_boss_elim hp with ⟨q, hget, hpq⟩
    have hspec := playerGroup_spec hget
    have hdv : q.damage_values = [] := by
      rw [hspec.2.2.1, h0]
      rfl
    rw [hpq]
    exact playerStats_empty un q hdv

/-- Witness for claim C4 at the concrete input `exC4`. -/
theorem C4_insufficient_sample_defaults_witness :
    sC4 ∈ guild_raid sdev0 exC4 ∧
    ((groupEntries (sC4.name, sC4.rarity, sC4.set) exC4).filter nonBomb
        = []) ∧
    (sC4.avg_damage = 0 ∧ sC4.stddev = 0 ∧ sC4.min_damage = 0 ∧
      sC4.max_damage = 0) := by
  have hout : guild_raid sdev0 exC4 = [sC4] := by
    simp [guild_raid, bossGroups, bossStep, upsert, bossKeyOf, bossUpd,
      bossInit, bossTypeOf, rarityOf, bossSetOf, tierOf, damageOf,
      damageTypeOf, mkEntry, bossStats, mean, listMin, listMax,
      List.mergeSort, sdev0, exC4, sC4]
  have hmem : sC4 ∈ guild_raid sdev0 exC4 := by
    rw [hout]
    exact List.mem_singleton_self _
  have hfil : (groupEntries (sC4.name, sC4.rarity, sC4.set) exC4).filter
      nonBomb = [] := by decide
  exact ⟨hmem, hfil,
    (C4_insufficient_sample_defaults.1 sdev0 exC4 sC4 hmem).1 hfil⟩

/-- Claim C5: among known-rarity rows the output is ordered by rarity rank
descending, then set descending, then total damage descending; in
particular Epic/set 1/damage 100 sorts before Rare/set 2/damage 500. -/
theorem C5_known_rarity_order :
    (∀ (sdev : List Int → ℚ) (entries : List RaidEntry),
      (guild_raid sdev entries).Pairwise (fun a b =>
        isKnownRarity a.rarity = true → isKnownRarity b.rarity = true →
          (rarity_order b.rarity < rarity_order a.rarity ∨
            (rarity_order a.rarity = rarity_order b.rarity ∧
              (b.set < a.set ∨ (a.set = b.set ∧ b.damage ≤ a.damage)))))) ∧
    (guild_raid sdev0 exC5).map (fun s : BossSummary => s.rarity) =
      ["Epic", "Rare"] := by
  constructor
  · intro sdev entries
    refine (guild_raid_pairwise sdev entries).imp ?_
    intro a b hle _ _
    simp only [bossLe, lex3, bossSortKey, decide_eq_true_eq] at hle
    omega
  · simp [guild_raid, bossGroups, bossStep, upsert, bossKeyOf, bossUpd,
      bossInit, bossTypeOf, rarityOf, bossSetOf, tierOf, damageOf,
      damageTypeOf, mkEntry, bossStats, mean, listMin, listMax,
      List.mergeSort, List.merge, bossLe, lex3, bossSortKey, rarity_order,
      sdev0, exC5]

/-- Witness instantiating claim C5's ordering law on a concrete run. -/
theorem C5_known_rarity_order_witness :
    (guild_raid sdev0 exC5).Pairwise (fun a b =>
      isKnownRarity a.rarity = true → isKnownRarity b.rarity = true →
        (rarity_order b.rarity < rarity_order a.rarity ∨
          (rarity_order a.rarity = rarity_order b.rarity ∧
            (b.set < a.set ∨ (a.set = b.set ∧ b.damage ≤ a.damage))))) :=
  C5_known_rarity_order.1 sdev0 exC5

/-- One bomb (100) and one melee (50) attack, both by player `u1`. -/
def exC6 : List RaidEntry :=
  [mkEntry "B" "Epic" 1 1 "u1" 100 "Bomb", mkEntry "B" "Epic" 1 1 "u1" 50 "Melee"]

/-- The player row produced for `exC6`. -/
def pC6 : PlayerSummary := ⟨"u1", "", 150, 1, 50, 50, 50⟩

/-- Claim C6: every player row's `attackCount` equals the number of that
player's non-bomb entries, while its `totalDamage` sums all of the player's
entries, bombs included. -/
theorem C6_attackCount_semantics :
    ∀ (un : String → Option String) (bt r : String) (bs : Int)
      (entries : List RaidEntry) (p : PlayerSummary),
      p ∈ guild_raid_boss un bt r bs entries →
        p.attack_count =
          ((playerEntries p.user_id
              (entries.filter (matchesBoss bt r bs))).filter nonBomb).length ∧
        p.total_damage =
          ((playerEntries p.user_id
              (entries.filter (matchesBoss bt r bs))).map damageOf).sum := by
  intro un bt r bs entries p hp
  rcases guild_raid_boss_elim hp with ⟨q, hget, hpq⟩
  have hspec := playerGroup_spec hget
  refine ⟨?_, ?_⟩
  · have h1 : p.attack_count = q.attack_count := by rw [hpq]; rfl
    rw [h1]
    exact hspec.2.2.2
  · have h1 : p.total_damage = q.total_damage := by rw [hpq]; rfl
    rw [h1]
    exact hspec.2.1

/-- Witness for claim C6 at the concrete input `exC6`. -/
theorem C6_attackCount_semantics_witness :
    pC6 ∈ guild_raid_boss un0 "B" "Epic" 1 exC6 ∧
    (pC6.attack_count =
        ((playerEntries pC6.user_id
            (exC6.filter (matchesBoss "B" "Epic" 1))).filter nonBomb).length ∧
      pC6.total_damage =
        ((playerEntries pC6.user_id
            (exC6.filter (matchesBoss "B" "Epic" 1))).map damageOf).sum) := by
  have hout : guild_raid_boss un0 "B" "Epic" 1 exC6 = [pC6] := by
    simp [guild_raid_boss, playerGroups, playerStep, upsert, userIdOf,
      damageOf, damageTypeOf, playerUpd, playerInit, matchesBoss, mkEntry,
      playerStats, un0, mean, listMin, listMax, List.mergeSort, exC6, pC6]
  have hmem : pC6 ∈ guild_raid_boss un0 "B" "Epic" 1 exC6 := by
    rw [hout]
    exact List.mem_singleton_self _
  exact ⟨hmem, C6_attackCount_semantics un0 "B" "Epic" 1 exC6 pC6 hmem⟩

/-- Claim C7: the player aggregator's output is sorted by total damage
descending; the output is a deterministic function of the inputs (two runs
on identical input coincide); and on the Alice 300 / Bob 500 / Carol 500
example Bob and Carol precede Alice, keeping their input order. -/
theorem C7_player_order_deterministic :
    (∀ (un : String → Option String) (bt r : String) (bs : Int)
        (entries : List RaidEntry),
      (guild_raid_boss un bt r bs entries).Pairwise
        (fun a b => b.total_damage ≤ a.total_damage)) ∧
    (∀ (un : String → Option String) (bt r : String) (bs : Int)
        (entries : List RaidEntry),
      guild_raid_boss un bt r bs entries =
        guild_raid_boss un bt r bs entries) ∧
    (guild_raid_boss un0 "B" "Epic" 1 exC7).map
        (fun p : PlayerSummary => p.user_id) = ["Bob", "Carol", "Alice"] := by
  refine ⟨?_, fun _ _ _ _ _ => rfl, ?_⟩
  · intro un bt r bs entries
    refine (guild_raid_boss_pairwise un bt r bs entries).imp ?_
    intro a b hle
    rw [playerLe, decide_eq_true_eq] at hle
    omega
  · simp [guild_raid_boss, playerGroups, playerStep, upsert, userIdOf,
      damageOf, damageTypeOf, playerUpd, playerInit, matchesBoss, mkEntry,
      playerStats, un0, mean, listMin, listMax, List.mergeSort, List.merge,
      playerLe, exC7]

/-- Witness instantiating claim C7's sortedness law on a concrete run. -/
theorem C7_player_order_deterministic_witness :
    (guild_raid_boss un0 "B" "Epic" 1 exC7).Pairwise
      (fun a b => b.total_damage ≤ a.total_damage) :=
  C7_player_order_deterministic.1 un0 "B" "Epic" 1 exC7

/-- A bomb at tier 7 and a melee attack at tier 1 on the same encounter. -/
def exC8 : List RaidEntry :=
  [mkEntry "B" "Epic" 1 7 "u1" 100 "Bomb", mkEntry "B" "Epic" 1 1 "u2" 50 "Melee"]

/-- The summary produced for `exC8`: both tiers count, bomb included. -/
def sC8 : BossSummary := ⟨"B", 150, "Epic", 1, 2, 50, 0, 50, 50⟩

/-- Claim C8: every encounter summary's `tierCount` is the number of
distinct tier values over ALL entries of the group, bomb entries
included. -/
theorem C8_tierCount_semantics :
    ∀ (sdev : List Int → ℚ) (entries : List RaidEntry) (s : BossSummary),
      s ∈ guild_raid sdev entries →
        s.tier_count =
          ((groupEntries (s.name, s.rarity, s.set) entries).map
              tierOf).toFinset.card := by
  intro sdev entries s hs
  rcases guild_raid_elim hs with ⟨g, hget, hsg⟩
  have hspec := bossGroup_spec hget
  have h1 : s.tier_count = g.tiers.card := by
    rw [hsg, bossStats_tier_count]
  rw [h1, hspec.2.2.2.2.1]

/-- Witness for claim C8 at the concrete input `exC8`. -/
theorem C8_tierCount_semantics_witness :
    sC8 ∈ guild_raid sdev0 exC8 ∧
    sC8.tier_count =
      ((groupEntries (sC8.name, sC8.rarity, sC8.set) exC8).map
          tierOf).toFinset.card := by
  have hout : guild_raid sdev0 exC8 = [sC8] := by
    simp [guild_raid, bossGroups, bossStep, upsert, bossKeyOf, bossUpd,
      bossInit, bossTypeOf, rarityOf, bossSetOf, tierOf, damageOf,
      damageTypeOf, mkEntry, bossStats, mean, listMin, listMax,
      List.mergeSort, sdev0, exC8, sC8]
  have hmem : sC8 ∈ guild_raid sdev0 exC8 := by
    rw [hout]
    exact List.mem_singleton_self _
  exact ⟨hmem, C8_tierCount_semantics sdev0 exC8 sC8 hmem⟩

lemma guild_raid_boss_user_ids_nodup (un : String → Option String)
    (bt r : String) (bs : Int) (l : List RaidEntry) :
    ((guild_raid_boss un bt r bs l).map
        (fun p : PlayerSummary => p.user_id)).Nodup := by
  rw [guild_raid_boss]
  rw [((List.mergeSort_perm _ playerLe).map
    (fun p : PlayerSummary => p.user_id)).nodup_iff]
  rw [List.map_map]
  have heq : List.map
      ((fun p : PlayerSummary => p.user_id) ∘ fun kv => playerStats un kv.2)
      (playerGroups (l.filter (matchesBoss bt r bs))) =
      List.map Prod.fst (playerGroups (l.filter (matchesBoss bt r bs))) := by
    apply List.map_congr_left
    intro kv hkv
    have hget := alistGet_of_mem (playerGroups_nodup _) hkv
    exact (playerGroup_spec hget).1
  rw [heq]
  exact playerGroups_nodup _

/-- Claim C9 (implicit): an entry of the filtered encounter lacking a
`userId` is grouped under the id `"Unknown"`: the output contains exactly
one row with `user_id = "Unknown"`, whose total damage sums all entries
attributed to `"Unknown"`; nothing is dropped and no error occurs. -/
theorem C9_missing_userId_grouping :
    ∀ (un : String → Option String) (bt r : String) (bs : Int)
      (entries : List RaidEntry) (e : RaidEntry),
      e ∈ entries.filter (matchesBoss bt r bs) → e.userId = none →
        ∃ p ∈ guild_raid_boss un bt r bs entries,
          p.user_id = "Unknown" ∧
          p.total_damage =
            ((playerEntries "Unknown"
                (entries.filter (matchesBoss bt r bs))).map damageOf).sum ∧
          ((guild_raid_boss un bt r bs entries).map
              (fun q : PlayerSummary => q.user_id)).count "Unknown" = 1 := by
  intro un bt r bs entries e he hnone
  have huid : userIdOf e = "Unknown" := by rw [userIdOf, hnone]; rfl
  have hmemp : e ∈ playerEntries "Unknown"
      (entries.filter (matchesBoss bt r bs)) := by
    rw [playerEntries]
    exact List.mem_filter.2 ⟨he, by simp [huid]⟩
  obtain ⟨q, hget⟩ : ∃ q, alistGet "Unknown"
      (playerGroups (entries.filter (matchesBoss bt r bs))) = some q := by
    cases hpe : playerEntries "Unknown"
        (entries.filter (matchesBoss bt r bs)) with
    | nil =>
        rw [hpe] at hmemp
        simp at hmemp
    | cons e0 es =>
        rw [playerGroups_get, hpe]
        exact ⟨_, rfl⟩
  have hspec := playerGroup_spec hget
  refine ⟨playerStats un q, guild_raid_boss_intro hget, ?_, ?_, ?_⟩
  · rw [playerStats_user_id, hspec.1]
  · rw [playerStats_total, hspec.2.1]
  · have hnd := guild_raid_boss_user_ids_nodup un bt r bs entries
    have hmem2 : "Unknown" ∈ (guild_raid_boss un bt r bs entries).map
        (fun q : PlayerSummary => q.user_id) :=
      List.mem_map.2 ⟨playerStats un q, guild_raid_boss_intro hget,
        by rw [playerStats_user_id, hspec.1]⟩
    have h1 := List.nodup_iff_count_le_one.1 hnd "Unknown"
    have h2 := List.count_pos_iff.2 hmem2
    omega

/-- A single matching entry with no `userId` field. -/
def exC9 : List RaidEntry :=
  [⟨some "B", some "Epic", some 1, some 1, none, some 70, some "Melee"⟩]

/-- The entry of `exC9`. -/
def eC9 : RaidEntry :=
  ⟨some "B", some "Epic", some 1, some 1, none, some 70, some "Melee"⟩

/-- Witness for claim C9 at the concrete input `exC9`. -/
theorem C9_missing_userId_grouping_witness :
    eC9 ∈ exC9.filter (matchesBoss "B" "Epic" 1) ∧ eC9.userId = none ∧
    ∃ p ∈ guild_raid_boss un0 "B" "Epic" 1 exC9,
      p.user_id = "Unknown" ∧
      p.total_damage =
        ((playerEntries "Unknown"
            (exC9.filter (matchesBoss "B" "Epic" 1))).map damageOf).sum ∧
      ((guild_raid_boss un0 "B" "Epic" 1 exC9).map
          (fun q : PlayerSummary => q.user_id)).count "Unknown" = 1 :=
  ⟨by decide, rfl,
    C9_missing_userId_grouping un0 "B" "Epic" 1 exC9 eC9 (by decide) rfl⟩

/-- Claim C10 (implicit): a player all of whose entries in the filtered
encounter are bombs still gets a row: total damage sums the bombs,
`attackCount` is 0, and `avg`, `min`, `max` are all 0. -/
theorem C10_all_bomb_player_row :
    ∀ (un : String → Option String) (bt r : String) (bs : Int)
      (entries : List RaidEntry) (uid : String),
      playerEntries uid (entries.filter (matchesBoss bt r bs)) ≠ [] →
      (∀ e ∈ playerEntries uid (entries.filter (matchesBoss bt r bs)),
        nonBomb e = false) →
        ∃ p ∈ guild_raid_boss un bt r bs entries,
          p.user_id = uid ∧
          p.total_damage =
            ((playerEntries uid (entries.filter (matchesBoss bt r bs))).map
                damageOf).sum ∧
          p.attack_count = 0 ∧ p.avg_damage = 0 ∧ p.min_damage = 0 ∧
          p.max_damage = 0 := by
  intro un bt r bs entries uid hne hbomb
  obtain ⟨q, hget⟩ : ∃ q, alistGet uid
      (playerGroups (entries.filter (matchesBoss bt r bs))) = some q := by
    cases hpe : playerEntries uid (entries.filter (matchesBoss bt r bs)) with
    | nil => exact absurd hpe hne
    | cons e0 es =>
        rw [playerGroups_get, hpe]
        exact ⟨_, rfl⟩
  have hspec := playerGroup_spec hget
  have hfil : (playerEntries uid
      (entries.filter (matchesBoss bt r bs))).filter nonBomb = [] :=
    List.filter_eq_nil_iff.2 (fun a ha => by simp [hbomb a ha])
  have hdv : q.damage_values = [] := by
    rw [hspec.2.2.1, hfil]
    rfl
  have hac : q.attack_count = 0 := by
    rw [hspec.2.2.2, hfil]
    rfl
  rcases playerStats_empty un q hdv with ⟨h1, h2, h3⟩
  exact ⟨playerStats un q, guild_raid_boss_intro hget,
    by rw [playerStats_user_id, hspec.1],
    by rw [playerStats_total, hspec.2.1],
    by rw [playerStats_count, hac],
    h1, h2, h3⟩

/-- A single bomb attack of 40 by player `u9`. -/
def exC10 : List RaidEntry := [mkEntry "B" "Epic" 1 1 "u9" 40 "Bomb"]

/-- Witness for claim C10 at the concrete input `exC10`. -/
theorem C10_all_bomb_player_row_witness :
    playerEntries "u9" (exC10.filter (matchesBoss "B" "Epic" 1)) ≠ [] ∧
    (∀ e ∈ playerEntries "u9" (exC10.filter (matchesBoss "B" "Epic" 1)),
      nonBomb e = false) ∧
    ∃ p ∈ guild_raid_boss un0 "B" "Epic" 1 exC10,
      p.user_id = "u9" ∧
      p.total_damage =
        ((playerEntries "u9" (exC10.filter (matchesBoss "B" "Epic" 1))).map
            damageOf).sum ∧
      p.attack_count = 0 ∧ p.avg_damage = 0 ∧ p.min_damage = 0 ∧
      p.max_damage = 0 :=
  ⟨by decide, by decide,
    C10_all_bomb_player_row un0 "B" "Epic" 1 exC10 "u9" (by decide)
      (by decide)⟩

end Tacticus
